import Mathlib

/-!
Verification of the matador materials-discovery toolkit against its
specification.  Each Python function relevant to the checked claims is
shallowly embedded as a Lean definition over exact arithmetic (`ℚ`, `ℤ`,
`ℕ`, `String`), and the claims are settled as theorems about those
definitions.
-/

namespace Matador

/-! ## Console output utilities (`matador/utils/print_utils.py`) -/

/-- One `[symbol, count]` pair's contribution to the TeX string, embedding the
loop body of `stoich2tex`: the symbol is appended when `count > 0`, and a
subscript group when `count != 1`.  Counts are integers (the data model keeps
stoichiometries as integer pairs), so the `float(count).is_integer()`
normalisation in the source is the identity here. -/
def stoichPairTex (p : String × ℤ) : List String :=
  (if p.2 > 0 then [p.1] else []) ++
    (if p.2 ≠ 1 then ["_\x7b" ++ toString p.2 ++ "\x7d"] else [])

/-- Embedding of `stoich2tex`: builds `list_tex` left to right over the
stoichiometry and wraps the joined result in `$`. -/
def stoich2tex (s : List (String × ℤ)) : String :=
  "$" ++ String.join (s.foldl (fun acc p => acc ++ stoichPairTex p) []) ++ "$"

/-! ## Refiner construction (`matador/refine.py`) -/

def possibleTasks : List String := ["sym", "spg", "substruc", "sub", "ratios", "remove"]

def possibleModes : List String := ["display", "overwrite", "set"]

/-- Embedding of the validation logic of `Refiner.__init__` (the argument
checks before any analysis task runs).  `collection` records whether a target
collection handle was supplied.  The result is the effective mode on success,
or the fatal `exit` message.  Mirrors the source order: an unrecognised mode is
first silently replaced by `"display"`, then the collection check runs, then
the task checks. -/
def refinerInit (collection : Bool) (task : Option String) (mode : String) :
    Except String String :=
  let mode := if mode ∈ possibleModes then mode else "display"
  if collection = false ∧ (mode = "overwrite" ∨ mode = "set") then
    Except.error "Impossible to overwite or set without db collection, exiting..."
  else
    match task with
    | none => Except.error "No specified task, exiting..."
    | some t =>
        if t ∈ possibleTasks then Except.ok mode
        else Except.error "Did not understand task"

/-! ## FullRelaxer geometry-optimisation schedule (`matador/compute.py`) -/

/-- Embedding of the schedule computation in `FullRelaxer.__init__`:
`num_rough_iter` (default 4 when the `rough` argument is `None`) entries of
`rough_iter` (2, or 3 when `calc_doc['geom_method'].lower() == 'tpsd'`),
extended by `int(int(geom_max_iter)/20)` entries of 20.  Python `int()` of the
float quotient truncates, which on the non-negative `geom_max_iter` equals
natural division. -/
def geomMaxIterList (maxIter : ℕ) (rough : Option ℕ) (geomMethod : Option String) :
    List ℕ :=
  let numRoughIter := match rough with | none => 4 | some r => r
  let roughIter : ℕ :=
    match geomMethod with
    | some m => if m.toLower = "tpsd" then 3 else 2
    | none => 2
  let numFineIter := maxIter / 20
  List.replicate numRoughIter roughIter ++ List.replicate numFineIter 20

/-! ## Importer quality score (`src/scrapers/spatula.py`, `struct2db`) -/

/-- Boolean infix test on character lists, used to embed Python's
`'OTF' in string`. -/
def charsContain (needle : List Char) : List Char → Bool
  | [] => needle.isPrefixOf []
  | c :: rest => needle.isPrefixOf (c :: rest) || charsContain needle rest

/-- Embedding of `'OTF' in struct['species_pot'][elem].upper()`: upper-casing
is applied character by character, which agrees with Python `str.upper` on the
ASCII pseudopotential strings at hand. -/
def containsOTF (s : String) : Bool :=
  charsContain "OTF".toList (s.data.map Char.toUpper)

/-- The quality loop of `struct2db`: walks the stoichiometry, zeroing the score
(and stopping, as the `break` does) at the first element missing from
`species_pot`, otherwise deducting one point per generic (OTF) pseudopotential.
`sp` is the `species_pot` mapping as an association list. -/
def qualityLoop (sp : List (String × String)) :
    List (String × ℕ) → ℤ → ℤ
  | [], q => q
  | (e, _) :: rest, q =>
      match sp.lookup e with
      | none => 0
      | some ps => qualityLoop sp rest (q - if containsOTF ps then 1 else 0)

/-- Embedding of the quality score assigned by `struct2db`: 5 to start, 0 when
`species_pot` is absent, else the loop above. -/
def structQuality (stoich : List (String × ℕ))
    (speciesPot : Option (List (String × String))) : ℤ :=
  match speciesPot with
  | none => 0
  | some sp => qualityLoop sp stoich 5

/-- The number of stoichiometry entries whose pseudopotential definition is
generic (contains OTF), used to state the quality formula. -/
def otfCount (sp : List (String × String)) (stoich : List (String × ℕ)) : ℕ :=
  (stoich.filter fun p =>
    match sp.lookup p.1 with
    | none => false
    | some ps => containsOTF ps).length

/-- Predicate: `species_pot` covers the whole stoichiometry. -/
def covers (sp : List (String × String)) (stoich : List (String × ℕ)) : Prop :=
  ∀ p ∈ stoich, sp.lookup p.1 ≠ none

instance (sp : List (String × String)) (stoich : List (String × ℕ)) :
    Decidable (covers sp stoich) := by
  unfold covers; infer_instance

/-! ## BatchRun.spawn error aggregation (`matador/compute/batch.py`) -/

/-- What one worker process pushes onto the shared result queue: either its
normal job count, or an exception, modelled by its Python type name and its
string rendering. -/
inductive WorkerResult where
  | count (n : ℕ)
  | exc (ty : String) (msg : String)
deriving DecidableEq

/-- The exception reports among the collected per-worker results, paired with
the reporting process id — the `errors` list built by `spawn`. -/
def spawnErrors (results : List (ℕ × WorkerResult)) : List (ℕ × String × String) :=
  results.filterMap fun r =>
    match r.2 with
    | WorkerResult.count _ => none
    | WorkerResult.exc t m => some (r.1, t, m)

/-- The concatenated `error_message` built by `spawn` from the failed workers. -/
def spawnErrorMessage (errors : List (ℕ × String × String)) : String :=
  String.join (errors.map fun e =>
    "Process " ++ toString e.1 ++ " raised error " ++ e.2.2 ++ ". ")

/-- Embedding of the decision at the end of `BatchRun.spawn`, after one result
has been collected per worker: `none` when no worker reported an exception,
otherwise the single raised error as (exception type, message).  When
`len(set(types)) == 1` the common type is re-raised with the concatenated
message, else `BundledErrors` is raised with it. -/
def spawnRaise (results : List (ℕ × WorkerResult)) : Option (String × String) :=
  match spawnErrors results with
  | [] => none
  | e :: rest =>
      if ((e :: rest).map fun er => er.2.1).dedup.length = 1 then
        some (e.2.1, spawnErrorMessage (e :: rest))
      else
        some ("BundledErrors", spawnErrorMessage (e :: rest))

/-! ## reset_job_folder (`matador/compute/batch.py`) -/

/-- The working-directory state `reset_job_folder` acts on: the `*.res` files
present, the lock and kill files present, and the lines of `jobs.txt` exactly
as `readlines` yields them (so normally with a trailing newline). -/
structure JobFolder where
  resFiles : List String
  lockFiles : List String
  killFiles : List String
  jobsLines : List String
deriving DecidableEq

/-- The state of the directory after a reset. -/
structure ResetOutcome where
  lockFiles : List String
  killFiles : List String
  jobsContent : String
  numRemaining : ℕ
deriving DecidableEq

/-- Python's whitespace set for `str.strip()`. -/
def isPySpace (c : Char) : Bool :=
  c = ' ' || c = '\t' || c = '\n' || c = '\r' || c = '\x0b' || c = '\x0c'

/-- Python `str.strip()` on a ledger line: drops leading and trailing
whitespace. -/
def pyStrip (s : String) : String :=
  String.mk (((s.data.dropWhile isPySpace).reverse.dropWhile isPySpace).reverse)

/-- One fuelled step list for Python `str.replace(pat, repl)` on char lists:
replaces every non-overlapping occurrence, scanning left to right.  The fuel
(at least the list length) only makes the recursion structural. -/
def replaceAllAux (pat repl : List Char) : ℕ → List Char → List Char
  | 0, l => l
  | _ + 1, [] => []
  | fuel + 1, c :: rest =>
      if pat.isPrefixOf (c :: rest) ∧ pat ≠ [] then
        repl ++ replaceAllAux pat repl fuel (List.drop pat.length (c :: rest))
      else c :: replaceAllAux pat repl fuel rest

/-- Python `s.replace(pat, repl)` (for the non-empty patterns used here). -/
def pyReplace (s pat repl : String) : String :=
  String.mk (replaceAllAux pat.data repl.data s.data.length s.data)

/-- Embedding of `if os.path.isfile(name): os.remove(name)` on a directory listing. -/
def removeIfPresent (files : List String) (name : String) : List String :=
  if name ∈ files then files.erase name else files

/-- The deletion loop of `reset_job_folder` applied to one kind of marker file:
for every `f` in `res_list`, remove `f.replace('.res','') + ext` when present.
The source interleaves the two extensions inside one loop; since deletions on
distinct listings are independent this is embedded as one fold per listing. -/
def removeMarkers (files : List String) (resList : List String) (ext : String) :
    List String :=
  resList.foldl (fun acc f => removeIfPresent acc (pyReplace f ".res" "" ++ ext)) files

/-- The `jobs.txt` rewrite loop of `reset_job_folder`: each line is stripped;
lines whose stripped form is in `res_list` are skipped, the others are written
back — note the source writes the stripped line with no newline, so the
surviving entries are concatenated. -/
def rewriteJobs (resList : List String) : List String → String
  | [] => ""
  | line :: rest =>
      let l := pyStrip line
      if l ∈ resList then rewriteJobs resList rest
      else l ++ rewriteJobs resList rest

/-- Embedding of `reset_job_folder`: removes the `.res.lock` and `.kill`
markers matching current `*.res` files, rewrites `jobs.txt` through
`rewriteJobs`, and returns `len(res_list)`. -/
def reset_job_folder (st : JobFolder) : ResetOutcome :=
  { lockFiles := removeMarkers st.lockFiles st.resFiles ".res.lock"
    killFiles := removeMarkers st.killFiles st.resFiles ".kill"
    jobsContent := rewriteJobs st.resFiles st.jobsLines
    numRemaining := st.resFiles.length }

/-- The jobs ledger the claim predicts after a reset: entries naming a
still-present result file remain, the rest are excluded.  Stated from the
claim's words, to be compared with the embedded code. -/
def claimedResetJobs (st : JobFolder) : List String :=
  (st.jobsLines.map pyStrip).filter fun l => l ∈ st.resFiles

/-! ## Per-B fields in hull construction (`matador/hull.py`, `hull_2d`) -/

/-- The `num_b` accumulation in `hull_2d`: for each stoichiometry entry and
each entry of `one_minus_x_elem`, add the count on a symbol match, then sum
over the per-chempot tallies. -/
def numB (stoich : List (String × ℕ)) (oneMinusX : List String) : ℕ :=
  stoich.foldl
    (fun acc p => acc + (oneMinusX.filter fun e => e = p.1).length * p.2) 0

/-- Embedding of the per-B annotation of one candidate document in the binary
branch of `hull_2d`: when `num_b == 0` both fields get the sentinel `12345e5`,
otherwise enthalpy and cell volume are divided by `num_b * num_fu`. -/
def perBFields (stoich : List (String × ℕ)) (oneMinusX : List String)
    (numFu : ℕ) (enthalpy cellVolume : ℚ) : ℚ × ℚ :=
  let nb := numB stoich oneMinusX
  if nb = 0 then (12345e5, 12345e5)
  else (enthalpy / (nb * numFu), cellVolume / (nb * numFu))

/-! ## Binary voltage curve (`matador/hull.py`, `voltage_curve`) -/

/-- A hull-cursor structure reduced to the fields the binary voltage curve
reads: intercalated-ion count `x`, `enthalpy_per_b`, `gravimetric_capacity`. -/
structure VCPoint where
  x : ℚ
  enthalpyPerB : ℚ
  capacity : ℚ
deriving DecidableEq

instance : Inhabited VCPoint := ⟨⟨0, 0, 0⟩⟩

/-- De-duplication by intercalated-ion count on the sorted cursor, keeping the
first structure of each count — the effect of
`np.unique(x, return_index=True)` on the sorted arrays. -/
def dedupRun (p : VCPoint) : List VCPoint → List VCPoint
  | [] => [p]
  | q :: rest => if p.x = q.x then dedupRun p rest else p :: dedupRun q rest

/-- See `dedupRun`: keeps, within each run of equal counts, the first
structure. -/
def dedupByX : List VCPoint → List VCPoint
  | [] => []
  | p :: rest => dedupRun p rest

/-- The sort-then-deduplicate preamble of the binary `voltage_curve`
(`argsort`/`sort` by intercalated-ion count, then `np.unique`). -/
def vcPoints (cursor : List VCPoint) : List VCPoint :=
  dedupByX (cursor.insertionSort fun p q => p.x ≤ q.x)

/-- Python index `i - 1` into a list of length `n`, for `i < n`: at `i = 0`
the negative index `-1` reads the last element. -/
def pyPred (i n : ℕ) : ℕ := (i + n - 1) % n

/-- The loop body of the binary `voltage_curve`:
`-(H[i] - H[i-1])/(x[i] - x[i-1]) + mu_enthalpy[0]`, with Python's negative
indexing at `i = 0`. -/
def vIter (pts : List VCPoint) (mu : ℚ) (i : ℕ) : ℚ :=
  -(((pts.getD i default).enthalpyPerB -
        (pts.getD (pyPred i pts.length) default).enthalpyPerB) /
      ((pts.getD i default).x - (pts.getD (pyPred i pts.length) default).x)) + mu

/-- Embedding of the voltage list of the binary `voltage_curve`: the loop
above over all indices, then `V[0] = V[1]` followed by `V[-1] = 0`. -/
def voltageList (cursor : List VCPoint) (mu : ℚ) : List ℚ :=
  let pts := vcPoints cursor
  let n := pts.length
  let v0 := (List.range n).map (vIter pts mu)
  let v1 := v0.set 0 (v0.getD 1 0)
  v1.set (n - 1) 0

/-! ## k-point spacing estimation (`src/utils/cell_utils.py`) -/

/-- Cross product `np.cross` of two 3-vectors. -/
def cross (u v : ℚ × ℚ × ℚ) : ℚ × ℚ × ℚ :=
  (u.2.1 * v.2.2 - u.2.2 * v.2.1,
   u.2.2 * v.1 - u.1 * v.2.2,
   u.1 * v.2.1 - u.2.1 * v.1)

/-- Dot product `np.dot` of two 3-vectors. -/
def dot (u v : ℚ × ℚ × ℚ) : ℚ := u.1 * v.1 + u.2.1 * v.2.1 + u.2.2 * v.2.2

/-- Componentwise division of a 3-vector by a scalar. -/
def vdiv (v : ℚ × ℚ × ℚ) (s : ℚ) : ℚ × ℚ × ℚ := (v.1 / s, v.2.1 / s, v.2.2 / s)

/-- A real-space lattice in Cartesian basis: three row vectors. -/
structure Lattice where
  a : ℚ × ℚ × ℚ
  b : ℚ × ℚ × ℚ
  c : ℚ × ℚ × ℚ

/-- Embedding of `real2recip` up to the overall `2π` factor: the source sets
`recip_lat[i] = 2π·cross(..)/dot(..)` and `calc_mp_spacing` then divides each
reciprocal row length by `2π · mp_grid[j]`, so the two `2π` factors cancel
exactly; the embedding drops both, keeping the computation in `ℚ`. -/
def real2recipStar (L : Lattice) : Lattice :=
  ⟨vdiv (cross L.b L.c) (dot L.a (cross L.b L.c)),
   vdiv (cross L.c L.a) (dot L.b (cross L.c L.a)),
   vdiv (cross L.a L.b) (dot L.c (cross L.a L.b))⟩

/-- Squared Euclidean length of a row, `np.sum(np.power(row, 2))`. -/
def lenSq (v : ℚ × ℚ × ℚ) : ℚ := v.1 ^ 2 + v.2.1 ^ 2 + v.2.2 ^ 2

/-- Row length `sqrt(Σ vᵢ²)`.  The source takes a floating-point square root;
`Rat.sqrt` agrees with it exactly whenever the squared length is the square of
a rational (true of every lattice appearing in the theorems below). -/
def rowLen (v : ℚ × ℚ × ℚ) : ℚ := Rat.sqrt (lenSq v)

/-- One per-axis spacing of `calc_mp_spacing`:
`recip_len[j] / (2π · mp_grid[j])`, with the `2π` cancelled as described at
`real2recipStar`. -/
def axisSpacing (L : Lattice) (n : ℕ) (row : Lattice → ℚ × ℚ × ℚ) : ℚ :=
  rowLen (row (real2recipStar L)) / n

/-- The `max_spacing` loop of `calc_mp_spacing`, unrolled over `j = 0, 1, 2`
(starting value 0, `spacing if spacing > max_spacing else max_spacing`). -/
def maxSpacing (L : Lattice) (grid : ℕ × ℕ × ℕ) : ℚ :=
  let s0 := axisSpacing L grid.1 Lattice.a
  let s1 := axisSpacing L grid.2.1 Lattice.b
  let s2 := axisSpacing L grid.2.2 Lattice.c
  let m0 : ℚ := if s0 > 0 then s0 else 0
  let m1 : ℚ := if s1 > m0 then s1 else m0
  if s2 > m1 then s2 else m1

/-- Embedding of `round(log10(m) - 1)` for rational `m > 0`, embedded exactly: with
`L = Int.log 10 m` (so `10^L ≤ m < 10^(L+1)`), the rounded value is `L - 1`
when `log10 m < L + 1/2`, i.e. when `m² < 10^(2L+1)`, and `L` otherwise.  An
exact tie `log10 m = L + 1/2` would force `m = 10^(L+1/2)`, which is
irrational, so no rational input ties. -/
def pyExponent (m : ℚ) : ℤ :=
  let l := Int.log 10 m
  if m ^ 2 < (10 : ℚ) ^ (2 * l + 1) then l - 1 else l

/-- Python's banker's rounding of a rational to the nearest integer
(ties to even). -/
def roundHalfEven (q : ℚ) : ℤ :=
  if q - ⌊q⌋ < 1 / 2 then ⌊q⌋
  else if (1 : ℚ) / 2 < q - ⌊q⌋ then ⌊q⌋ + 1
  else if Even ⌊q⌋ then ⌊q⌋ else ⌊q⌋ + 1

/-- Python's `round(q, prec)` on exact rationals. -/
def pyRound (q : ℚ) (prec : ℕ) : ℚ := (roundHalfEven (q * 10 ^ prec) : ℚ) / 10 ^ prec

/-- Embedding of `calc_mp_spacing`:
`round(max_spacing + 0.5 * 10 ** round(log10(max_spacing) - 1), prec)`.
The floating-point arithmetic of the source is idealised to exact rational
arithmetic. -/
def calc_mp_spacing (L : Lattice) (grid : ℕ × ℕ × ℕ) (prec : ℕ) : ℚ :=
  let m := maxSpacing L grid
  pyRound (m + 1 / 2 * (10 : ℚ) ^ pyExponent m) prec

/-- Modelled from the spec: the grid recomputed from a spacing takes, per
axis, the reciprocal-vector length divided by `2π × spacing`, rounded up to
the next integer; with the `2π` cancellation of `real2recipStar` this is
`⌈recip_len[j] / s⌉`.  The recomputation routine itself is not part of the
sources in tree (the spec's §8.9 check describes it). -/
def gridFromSpacing (L : Lattice) (s : ℚ) : ℤ × ℤ × ℤ :=
  (⌈rowLen (real2recipStar L).a / s⌉,
   ⌈rowLen (real2recipStar L).b / s⌉,
   ⌈rowLen (real2recipStar L).c / s⌉)

/-- The cubic lattice with parameter `a`. -/
def cubic (a : ℚ) : Lattice := ⟨(a, 0, 0), (0, a, 0), (0, 0, a)⟩

/-- Is a `Refiner` construction outcome fatal (an `exit`)? -/
def isFatal (r : Except String String) : Bool :=
  match r with
  | Except.error _ => true
  | Except.ok _ => false

/-!
## Theorems

Helper lemmas first, then one theorem per claim (with witnesses for the
theorems that carry hypotheses).
-/

theorem foldl_stoichPairTex (s : List (String × ℤ)) (acc : List String) :
    s.foldl (fun a p => a ++ stoichPairTex p) acc =
      acc ++ (s.map stoichPairTex).flatten := by
  induction s generalizing acc with
  | nil => simp
  | cons p rest ih => simp [ih, List.append_assoc]

/-- C8: `stoich2tex` yields a `$`-delimited string built left to right where
each `[symbol, count]` pair contributes its symbol exactly when `count > 0`
and a subscript group `_{count}` exactly when `count ≠ 1`; in particular
`[['Li', 3], ['P', 1]]` yields `$Li_{3}P$`. -/
theorem C8_stoich2tex :
    (∀ s : List (String × ℤ),
      stoich2tex s =
        "$" ++ String.join
          ((s.map fun p =>
            (if p.2 > 0 then [p.1] else []) ++
              if p.2 ≠ 1 then ["_\x7b" ++ toString p.2 ++ "\x7d"] else []).flatten)
          ++ "$") ∧
    stoich2tex [("Li", 3), ("P", 1)] = "$Li_\x7b3\x7dP$" := by
  constructor
  · intro s
    rw [stoich2tex, foldl_stoichPairTex]
    have h : (stoichPairTex : String × ℤ → List String) = fun p =>
        (if p.2 > 0 then [p.1] else []) ++
          if p.2 ≠ 1 then ["_\x7b" ++ toString p.2 ++ "\x7d"] else [] := by
      funext p; rfl
    rw [h]
    simp
  · decide

/-- C5: the geometry-optimisation schedule is exactly `num_rough_iter`
(default 4) entries of 2 (3 for `tpsd`), followed by exactly
`⌊geom_max_iter / 20⌋` entries of 20, in that order. -/
theorem C5_geom_schedule (maxIter : ℕ) (rough : Option ℕ) (gm : Option String) :
    geomMaxIterList maxIter rough gm =
      List.replicate (rough.getD 4)
          (if gm.map String.toLower = some "tpsd" then 3 else 2) ++
        List.replicate (maxIter / 20) 20 ∧
    (geomMaxIterList maxIter rough gm).length = rough.getD 4 + maxIter / 20 := by
  refine ⟨?_, ?_⟩ <;> cases rough <;> cases gm <;>
    simp [geomMaxIterList, Option.getD, Option.map] <;> omega

theorem qualityLoop_eq (sp : List (String × String)) (stoich : List (String × ℕ))
    (q : ℤ) :
    qualityLoop sp stoich q =
      if covers sp stoich then q - otfCount sp stoich else 0 := by
  induction stoich generalizing q with
  | nil => simp [qualityLoop, covers, otfCount]
  | cons p rest ih =>
    obtain ⟨e, c⟩ := p
    have hcov : covers sp ((e, c) :: rest) ↔ sp.lookup e ≠ none ∧ covers sp rest := by
      constructor
      · intro h
        exact ⟨h (e, c) (List.mem_cons_self _ _), fun p hp => h p (List.mem_cons_of_mem _ hp)⟩
      · rintro ⟨h1, h2⟩ p hp
        rcases List.mem_cons.mp hp with h | h
        · subst h; exact h1
        · exact h2 p h
    rw [show qualityLoop sp ((e, c) :: rest) q =
        (match sp.lookup e with
         | none => 0
         | some ps => qualityLoop sp rest (q - if containsOTF ps then 1 else 0)) from rfl]
    cases hl : sp.lookup e with
    | none =>
      have : ¬ covers sp ((e, c) :: rest) := by
        rw [hcov, hl]; simp
      simp [this]
    | some ps =>
      change qualityLoop sp rest (q - if containsOTF ps then 1 else 0) = _
      rw [ih]
      have hotf : otfCount sp ((e, c) :: rest) =
          (if containsOTF ps then 1 else 0) + otfCount sp rest := by
        simp only [otfCount, List.filter_cons, hl]
        cases h : containsOTF ps <;> (simp [h]; try omega)
      by_cases h2 : covers sp rest
      · have : covers sp ((e, c) :: rest) := by rw [hcov, hl]; exact ⟨by simp, h2⟩
        rw [if_pos h2, if_pos this, hotf]
        push_cast
        ring
      · have : ¬ covers sp ((e, c) :: rest) := by rw [hcov]; tauto
        rw [if_neg h2, if_neg this]

/-- C6: the quality score committed by `struct2db` is 0 when `species_pot` is
absent or misses an element of the stoichiometry, and otherwise equals 5 minus
one point per stoichiometry element with a generic (OTF) pseudopotential. -/
theorem C6_quality_score (stoich : List (String × ℕ)) :
    structQuality stoich none = 0 ∧
    (∀ sp, ¬ covers sp stoich → structQuality stoich (some sp) = 0) ∧
    (∀ sp, covers sp stoich →
      structQuality stoich (some sp) = 5 - otfCount sp stoich) := by
  refine ⟨rfl, fun sp h => ?_, fun sp h => ?_⟩ <;>
    simp [structQuality, qualityLoop_eq, h]

/-- C6 witness: the three cases evaluated on a concrete Li-P document. -/
theorem C6_quality_score_witness :
    structQuality [("Li", 1), ("P", 1)] (some [("P", "P_00PBE.usp")]) = 0 ∧
    structQuality [("Li", 1), ("P", 1)]
      (some [("Li", "Li_OTF.usp"), ("P", "P_00PBE.usp")]) = 4 := by
  constructor
  · exact (C6_quality_score _).2.1 _ (by decide)
  · have h := (C6_quality_score [("Li", 1), ("P", 1)]).2.2
      [("Li", "Li_OTF.usp"), ("P", "P_00PBE.usp")] (by decide)
    rw [h]
    have hc : otfCount [("Li", "Li_OTF.usp"), ("P", "P_00PBE.usp")]
        [("Li", 1), ("P", 1)] = 1 := by decide
    rw [hc]; norm_num

/-- C10: the quality score is not clamped at zero: on any fully covered
document it is 5 minus the number of OTF elements, so a six-element document
whose pseudopotentials are all OTF is stored with quality −1. -/
theorem C10_quality_negative :
    (∀ (stoich : List (String × ℕ)) (sp : List (String × String)),
      covers sp stoich → structQuality stoich (some sp) = 5 - otfCount sp stoich) ∧
    structQuality
      [("Li", 1), ("Na", 1), ("K", 1), ("Rb", 1), ("Cs", 1), ("Fr", 1)]
      (some [("Li", "Li_OTF.usp"), ("Na", "Na_OTF.usp"), ("K", "K_OTF.usp"),
             ("Rb", "Rb_OTF.usp"), ("Cs", "Cs_OTF.usp"), ("Fr", "Fr_OTF.usp")])
      = -1 := by
  refine ⟨fun stoich sp h => ?_, by decide⟩
  simp [structQuality, qualityLoop_eq, h]

/-- C10 witness: the general formula applied to the concrete six-element
all-OTF document. -/
theorem C10_quality_negative_witness :
    structQuality
      [("Li", 1), ("Na", 1), ("K", 1), ("Rb", 1), ("Cs", 1), ("Fr", 1)]
      (some [("Li", "Li_OTF.usp"), ("Na", "Na_OTF.usp"), ("K", "K_OTF.usp"),
             ("Rb", "Rb_OTF.usp"), ("Cs", "Cs_OTF.usp"), ("Fr", "Fr_OTF.usp")])
      = 5 - 6 := by
  have h := C10_quality_negative.1
    [("Li", 1), ("Na", 1), ("K", 1), ("Rb", 1), ("Cs", 1), ("Fr", 1)]
    [("Li", "Li_OTF.usp"), ("Na", "Na_OTF.usp"), ("K", "K_OTF.usp"),
     ("Rb", "Rb_OTF.usp"), ("Cs", "Cs_OTF.usp"), ("Fr", "Fr_OTF.usp")]
    (by decide)
  rw [h]
  have hc : otfCount
      [("Li", "Li_OTF.usp"), ("Na", "Na_OTF.usp"), ("K", "K_OTF.usp"),
       ("Rb", "Rb_OTF.usp"), ("Cs", "Cs_OTF.usp"), ("Fr", "Fr_OTF.usp")]
      [("Li", 1), ("Na", 1), ("K", 1), ("Rb", 1), ("Cs", 1), ("Fr", 1)] = 6 := by
    decide
  rw [hc]; norm_num

/-- C9: in the binary branch of `hull_2d`, a candidate with zero atoms of the
non-active elements receives the sentinel `12345e5` in both per-B fields
instead of being divided, and whenever the division branch is taken its
divisor `num_b * num_fu` is non-zero (documents have at least one formula
unit), so the division-by-zero case is unreachable. -/
theorem C9_per_b_guard (stoich : List (String × ℕ)) (oneMinusX : List String)
    (numFu : ℕ) (enthalpy cellVolume : ℚ) (hfu : 1 ≤ numFu) :
    (numB stoich oneMinusX = 0 →
      perBFields stoich oneMinusX numFu enthalpy cellVolume = (12345e5, 12345e5)) ∧
    (numB stoich oneMinusX ≠ 0 →
      ((numB stoich oneMinusX * numFu : ℕ) : ℚ) ≠ 0 ∧
      perBFields stoich oneMinusX numFu enthalpy cellVolume =
        (enthalpy / ((numB stoich oneMinusX * numFu : ℕ) : ℚ),
         cellVolume / ((numB stoich oneMinusX * numFu : ℕ) : ℚ))) := by
  constructor
  · intro h
    simp [perBFields, h]
  · intro h
    have hne : numB stoich oneMinusX * numFu ≠ 0 :=
      Nat.mul_ne_zero h (by omega)
    refine ⟨by exact_mod_cast hne, ?_⟩
    simp only [perBFields, if_neg h]
    push_cast
    rfl

/-- C9 witness: a LiP₃-style document with one B atom per formula unit and two
formula units is divided by 2; with a non-matching B element it gets the
sentinel. -/
theorem C9_per_b_guard_witness :
    perBFields [("Li", 3), ("P", 1)] ["K"] 2 10 4 = (12345e5, 12345e5) ∧
    perBFields [("Li", 3), ("P", 1)] ["P"] 2 10 4 = (5, 2) := by
  constructor
  · exact (C9_per_b_guard [("Li", 3), ("P", 1)] ["K"] 2 10 4 (by norm_num)).1
      (by decide)
  · have h := (C9_per_b_guard [("Li", 3), ("P", 1)] ["P"] 2 10 4 (by norm_num)).2
      (by decide)
    rw [h.2]
    have hn : numB [("Li", 3), ("P", 1)] ["P"] * 2 = 2 := by decide
    rw [hn]
    norm_num

/-- C3 counterexample: an unsupported mode name is not fatal at construction —
the `Refiner` falls back to `"display"` and proceeds, contradicting the claim
that a mode name outside the supported set aborts. -/
theorem C3_counterexample :
    "banana" ∉ possibleModes ∧
    refinerInit true (some "sym") "banana" = Except.ok "display" ∧
    isFatal (refinerInit true (some "sym") "banana") = false :=
  ⟨by decide, by rfl, by rfl⟩

/-- C3 (amended): a task name outside the supported set is fatal at
construction, as is a missing task, and requesting `"overwrite"`/`"set"`
without a collection handle; but a mode name outside the supported set is not
fatal — it is silently replaced by `"display"`. -/
theorem C3_refiner_validation (t m : String) (coll : Bool) :
    (t ∉ possibleTasks → isFatal (refinerInit coll (some t) m) = true) ∧
    isFatal (refinerInit coll none m) = true ∧
    (m = "overwrite" ∨ m = "set" →
      ∀ task, isFatal (refinerInit false task m) = true) ∧
    (m ∉ possibleModes → t ∈ possibleTasks →
      refinerInit coll (some t) m = Except.ok "display") := by
  refine ⟨?_, ?_, ?_, ?_⟩
  · intro ht
    by_cases hm : m ∈ possibleModes <;>
      simp only [refinerInit, if_pos, if_neg, hm, if_true, if_false] <;>
      split_ifs <;> simp_all [isFatal]
  · by_cases hm : m ∈ possibleModes <;>
      simp only [refinerInit, hm, if_true, if_false] <;>
      split_ifs <;> simp_all [isFatal]
  · intro hm task
    have hmem : m ∈ possibleModes := by
      rcases hm with h | h <;> subst h <;> decide
    simp [refinerInit, hmem, hm, isFatal]
  · intro hm ht
    simp only [refinerInit, hm, if_false]
    have hcond : ¬ (coll = false ∧ ("display" = "overwrite" ∨ "display" = "set")) := by
      simp
    rw [if_neg hcond]
    simp [ht]

/-- C3 witness: the three fatal branches and the non-fatal fallback, each on
concrete arguments. -/
theorem C3_refiner_validation_witness :
    isFatal (refinerInit true (some "banana") "display") = true ∧
    isFatal (refinerInit true none "display") = true ∧
    isFatal (refinerInit false (some "sym") "overwrite") = true ∧
    refinerInit true (some "sym") "nonsense" = Except.ok "display" := by
  refine ⟨(C3_refiner_validation "banana" "display" true).1 (by decide),
    (C3_refiner_validation "sym" "display" true).2.1,
    (C3_refiner_validation "sym" "overwrite" false).2.2.1 (Or.inl rfl) (some "sym"),
    (C3_refiner_validation "sym" "nonsense" true).2.2.2 (by decide) (by decide)⟩

theorem dedup_all_eq {α : Type} [DecidableEq α] (a : α) (l : List α)
    (h : ∀ x ∈ l, x = a) : (a :: l).dedup = [a] := by
  induction l with
  | nil => simp
  | cons b t ih =>
    have hb : b = a := h b (List.mem_cons_self _ _)
    subst hb
    rw [List.dedup_cons_of_mem (List.mem_cons_self b t)]
    exact ih fun x hx => h x (List.mem_cons_of_mem _ hx)

theorem dedup_len_one_iff {α : Type} [DecidableEq α] (a : α) (l : List α) :
    (a :: l).dedup.length = 1 ↔ ∀ x ∈ a :: l, x = a := by
  constructor
  · intro h x hx
    obtain ⟨y, hy⟩ := List.length_eq_one.mp h
    have hmem : x ∈ (a :: l).dedup := List.mem_dedup.mpr hx
    have hamem : a ∈ (a :: l).dedup := List.mem_dedup.mpr (List.mem_cons_self a l)
    rw [hy] at hmem hamem
    simp only [List.mem_singleton] at hmem hamem
    rw [hmem, hamem]
  · intro h
    rw [dedup_all_eq a l fun x hx => h x (List.mem_cons_of_mem _ hx)]
    rfl

/-- C7: when at least one worker reported an exception, `spawn` raises exactly
one error carrying the concatenation of every failed worker's description; its
type is the workers' common exception type when all reported exceptions share
one type, and `BundledErrors` otherwise. -/
theorem C7_spawn_raise (results : List (ℕ × WorkerResult)) :
    (spawnErrors results = [] → spawnRaise results = none) ∧
    (∀ e rest, spawnErrors results = e :: rest →
      ∃ ty, spawnRaise results = some (ty, spawnErrorMessage (e :: rest)) ∧
        ((∀ f ∈ spawnErrors results, f.2.1 = e.2.1) → ty = e.2.1) ∧
        ((∃ f ∈ spawnErrors results, f.2.1 ≠ e.2.1) → ty = "BundledErrors")) := by
  constructor
  · intro h
    unfold spawnRaise
    rw [h]
  · intro e rest h
    unfold spawnRaise
    rw [h]
    have hmapcons : ((e :: rest).map fun er => er.2.1) =
        e.2.1 :: (rest.map fun er => er.2.1) := List.map_cons _ _ _
    by_cases hd : ((e :: rest).map fun er => er.2.1).dedup.length = 1
    · refine ⟨e.2.1, ?_, fun _ => rfl, ?_⟩
      · show (if ((e :: rest).map fun er => er.2.1).dedup.length = 1
            then some (e.2.1, spawnErrorMessage (e :: rest))
            else some ("BundledErrors", spawnErrorMessage (e :: rest))) = _
        rw [if_pos hd]
      · rintro ⟨f, hf, hne⟩
        rw [hmapcons] at hd
        have hall := (dedup_len_one_iff _ _).mp hd
        exact False.elim (hne
          (hall f.2.1 (by rw [← hmapcons]; exact List.mem_map_of_mem _ hf)))
    · refine ⟨"BundledErrors", ?_, ?_, fun _ => rfl⟩
      · show (if ((e :: rest).map fun er => er.2.1).dedup.length = 1
            then some (e.2.1, spawnErrorMessage (e :: rest))
            else some ("BundledErrors", spawnErrorMessage (e :: rest))) = _
        rw [if_neg hd]
      · intro hall
        exfalso
        apply hd
        rw [hmapcons]
        refine (dedup_len_one_iff _ _).mpr fun x hx => ?_
        rw [← hmapcons] at hx
        obtain ⟨f, hf, rfl⟩ := List.mem_map.mp hx
        exact hall f hf

/-- C7 witness: two workers failing with different exception types yield a
`BundledErrors` with both descriptions; two workers failing with the same type
re-raise that type. -/
theorem C7_spawn_raise_witness :
    spawnRaise [(0, WorkerResult.exc "KeyError" "bad key"),
                (1, WorkerResult.exc "ValueError" "bad value")] =
      some ("BundledErrors",
        "Process 0 raised error bad key. Process 1 raised error bad value. ") ∧
    spawnRaise [(0, WorkerResult.exc "KeyError" "bad key"),
                (1, WorkerResult.count 3),
                (2, WorkerResult.exc "KeyError" "worse key")] =
      some ("KeyError",
        "Process 0 raised error bad key. Process 2 raised error worse key. ") := by
  constructor
  · obtain ⟨ty, heq, -, hdiff⟩ := (C7_spawn_raise
      [(0, WorkerResult.exc "KeyError" "bad key"),
       (1, WorkerResult.exc "ValueError" "bad value")]).2
      (0, "KeyError", "bad key") [(1, "ValueError", "bad value")] (by decide)
    rw [heq, hdiff ⟨(1, "ValueError", "bad value"), by decide, by decide⟩]
    rfl
  · obtain ⟨ty, heq, hsame, -⟩ := (C7_spawn_raise
      [(0, WorkerResult.exc "KeyError" "bad key"),
       (1, WorkerResult.count 3),
       (2, WorkerResult.exc "KeyError" "worse key")]).2
      (0, "KeyError", "bad key") [(2, "KeyError", "worse key")] (by decide)
    rw [heq, hsame (by decide)]
    rfl

theorem join_cons (s : String) (l : List String) :
    String.join (s :: l) = s ++ String.join l := by
  apply String.ext
  simp [String.join_eq]

theorem rewriteJobs_eq (resList : List String) (lines : List String) :
    rewriteJobs resList lines =
      String.join ((lines.map pyStrip).filter fun l => l ∉ resList) := by
  induction lines with
  | nil => rfl
  | cons line rest ih =>
    by_cases hmem : pyStrip line ∈ resList <;>
      simp only [rewriteJobs, List.map_cons, List.filter_cons] <;>
      simp [hmem, ih, join_cons]

theorem mem_of_mem_removeIfPresent {files : List String} {x n : String}
    (h : x ∈ removeIfPresent files n) : x ∈ files := by
  unfold removeIfPresent at h
  split at h
  · exact List.mem_of_mem_erase h
  · exact h

theorem nodup_removeIfPresent (files : List String) (n : String)
    (h : files.Nodup) : (removeIfPresent files n).Nodup := by
  unfold removeIfPresent
  split
  · exact h.erase n
  · exact h

theorem not_mem_removeIfPresent_self (files : List String) (x : String)
    (hnd : files.Nodup) : x ∉ removeIfPresent files x := by
  unfold removeIfPresent
  split
  · intro hx
    exact (hnd.mem_erase_iff.mp hx).1 rfl
  · assumption

theorem not_mem_foldl_remove_of_not_mem (g : String → String)
    (resList : List String) {files : List String} {x : String} (h : x ∉ files) :
    x ∉ resList.foldl (fun acc r => removeIfPresent acc (g r)) files := by
  induction resList generalizing files with
  | nil => exact h
  | cons r rest ih =>
    rw [List.foldl_cons]
    exact ih fun hx => h (mem_of_mem_removeIfPresent hx)

theorem not_mem_foldl_remove (g : String → String) (resList : List String)
    {files : List String} {f : String} (hnd : files.Nodup) (hf : f ∈ resList) :
    g f ∉ resList.foldl (fun acc r => removeIfPresent acc (g r)) files := by
  induction resList generalizing files with
  | nil => cases hf
  | cons r rest ih =>
    rw [List.foldl_cons]
    rcases List.mem_cons.mp hf with rfl | hmem
    · exact not_mem_foldl_remove_of_not_mem g rest
        (not_mem_removeIfPresent_self _ _ hnd)
    · exact ih (nodup_removeIfPresent _ _ hnd) hmem

/-- C1 counterexample: `reset_job_folder` does the opposite of the claim's
ledger rewrite.  With result file `A.res` present and ledger entries `A.res`
and `B.res`, the claim predicts the rewritten ledger keeps `A.res` (still
present) and excludes `B.res` (no longer present); the code keeps exactly the
stale entry `B.res` and drops `A.res`. -/
theorem C1_counterexample :
    (reset_job_folder ⟨["A.res"], [], [], ["A.res\n", "B.res\n"]⟩).jobsContent
        = "B.res" ∧
    "B.res" ∉ (JobFolder.mk ["A.res"] [] [] ["A.res\n", "B.res\n"]).resFiles ∧
    pyStrip "A.res\n" ∈ (JobFolder.mk ["A.res"] [] [] ["A.res\n", "B.res\n"]).resFiles ∧
    claimedResetJobs ⟨["A.res"], [], [], ["A.res\n", "B.res\n"]⟩ = ["A.res"] := by
  decide

/-- C1 (amended): `reset_job_folder` removes, for every current result file,
its `.res.lock` and `.kill` markers; rewrites `jobs.txt` so that every entry
that is still present among the current result files is excluded (the stale
entries remain, concatenated without separators); and returns the number of
current result files — all of which are afterwards unclaimed. -/
theorem C1_reset_job_folder (st : JobFolder)
    (hlock : st.lockFiles.Nodup) (hkill : st.killFiles.Nodup) :
    (reset_job_folder st).numRemaining = st.resFiles.length ∧
    (reset_job_folder st).jobsContent =
      String.join ((st.jobsLines.map pyStrip).filter fun l => l ∉ st.resFiles) ∧
    (∀ f ∈ st.resFiles,
      pyReplace f ".res" "" ++ ".res.lock" ∉ (reset_job_folder st).lockFiles) ∧
    (∀ f ∈ st.resFiles,
      pyReplace f ".res" "" ++ ".kill" ∉ (reset_job_folder st).killFiles) := by
  refine ⟨rfl, rewriteJobs_eq _ _, fun f hf => ?_, fun f hf => ?_⟩
  · exact not_mem_foldl_remove (fun r => pyReplace r ".res" "" ++ ".res.lock")
      st.resFiles hlock hf
  · exact not_mem_foldl_remove (fun r => pyReplace r ".res" "" ++ ".kill")
      st.resFiles hkill hf

/-- C1 witness: the amended theorem evaluated on a concrete folder. -/
theorem C1_reset_job_folder_witness :
    (reset_job_folder
      ⟨["A.res"], ["A.res.lock"], ["A.kill"], ["A.res\n", "B.res\n"]⟩).numRemaining
        = 1 ∧
    "A.res.lock" ∉ (reset_job_folder
      ⟨["A.res"], ["A.res.lock"], ["A.kill"], ["A.res\n", "B.res\n"]⟩).lockFiles ∧
    "A.kill" ∉ (reset_job_folder
      ⟨["A.res"], ["A.res.lock"], ["A.kill"], ["A.res\n", "B.res\n"]⟩).killFiles := by
  have h := C1_reset_job_folder
    ⟨["A.res"], ["A.res.lock"], ["A.kill"], ["A.res\n", "B.res\n"]⟩
    (by decide) (by decide)
  refine ⟨h.1, ?_, ?_⟩
  · have hx := h.2.2.1 "A.res" (by decide)
    rwa [show pyReplace "A.res" ".res" "" ++ ".res.lock" = "A.res.lock" by decide] at hx
  · have hx := h.2.2.2 "A.res" (by decide)
    rwa [show pyReplace "A.res" ".res" "" ++ ".kill" = "A.kill" by decide] at hx

instance : IsTotal VCPoint (fun p q => p.x ≤ q.x) := ⟨fun a b => le_total a.x b.x⟩

instance : IsTrans VCPoint (fun p q => p.x ≤ q.x) := ⟨fun _ _ _ h1 h2 => le_trans h1 h2⟩

theorem dedupRun_cons_self (p : VCPoint) (l : List VCPoint) :
    ∃ t, dedupRun p l = p :: t := by
  induction l generalizing p with
  | nil => exact ⟨[], rfl⟩
  | cons q rest ih =>
    by_cases h : p.x = q.x
    · simpa [dedupRun, h] using ih p
    · exact ⟨dedupRun q rest, by simp [dedupRun, h]⟩

theorem dedupRun_chain (p : VCPoint) (l : List VCPoint)
    (hs : List.Chain' (fun a b => a.x ≤ b.x) (p :: l)) :
    List.Chain' (fun a b => a.x < b.x) (dedupRun p l) := by
  induction l generalizing p with
  | nil => simp [dedupRun]
  | cons q rest ih =>
    have hhead := (List.chain'_cons.mp hs).1
    have htail := (List.chain'_cons.mp hs).2
    by_cases h : p.x = q.x
    · rw [show dedupRun p (q :: rest) = dedupRun p rest by simp [dedupRun, h]]
      apply ih p
      cases rest with
      | nil => simp
      | cons r t =>
        have h2 := List.chain'_cons.mp htail
        exact List.chain'_cons.mpr ⟨h ▸ h2.1, h2.2⟩
    · rw [show dedupRun p (q :: rest) = p :: dedupRun q rest by simp [dedupRun, h]]
      obtain ⟨t, ht⟩ := dedupRun_cons_self q rest
      have hchain := ih q htail
      rw [ht] at hchain ⊢
      exact List.chain'_cons.mpr ⟨lt_of_le_of_ne hhead h, hchain⟩

theorem vcPoints_chain (cursor : List VCPoint) :
    List.Chain' (fun a b => a.x < b.x) (vcPoints cursor) := by
  unfold vcPoints dedupByX
  have hs : List.Sorted (fun p q : VCPoint => p.x ≤ q.x)
      (cursor.insertionSort fun p q => p.x ≤ q.x) :=
    List.sorted_insertionSort _ cursor
  cases h : cursor.insertionSort fun p q => p.x ≤ q.x with
  | nil => simp
  | cons p l =>
    rw [h] at hs
    exact dedupRun_chain p l hs.chain'

theorem pyPred_eq (i n : ℕ) (h1 : 1 ≤ i) (h2 : i ≤ n) : pyPred i n = i - 1 := by
  unfold pyPred
  rw [show i + n - 1 = (i - 1) + n by omega, Nat.add_mod_right]
  exact Nat.mod_eq_of_lt (by omega)

/-- C4 counterexample: with exactly two distinct intercalated-ion counts the
claim fails — `V[0] = V[1]` runs before `V[-1] = 0`, so in the final list the
first voltage is the raw backward difference while the second is 0, not equal
to the first. -/
theorem C4_counterexample :
    voltageList [⟨0, 0, 0⟩, ⟨1, 1, 0⟩] 0 = [-1, 0] ∧
    (vcPoints [⟨0, 0, 0⟩, ⟨1, 1, 0⟩]).length = 2 ∧
    ¬ ((voltageList [⟨0, 0, 0⟩, ⟨1, 1, 0⟩] 0).getD 0 0 =
        (voltageList [⟨0, 0, 0⟩, ⟨1, 1, 0⟩] 0).getD 1 0) := by
  have h : voltageList [⟨0, 0, 0⟩, ⟨1, 1, 0⟩] 0 = [-1, 0] := by
    norm_num [voltageList, vcPoints, dedupByX, dedupRun, List.insertionSort,
      List.orderedInsert, vIter, pyPred, List.range_succ]
  refine ⟨h, ?_, ?_⟩
  · norm_num [vcPoints, dedupByX, dedupRun, List.insertionSort, List.orderedInsert]
  · rw [h]
    norm_num

/-- C4 (amended): the binary `voltage_curve` sorts by intercalated-ion count
and de-duplicates by that count (the resulting counts are strictly
increasing); each interior voltage is `-(ΔH_per_B)/(Δx) + μ`; the final
voltage is 0; and the first voltage equals the second whenever at least three
distinct counts remain — with exactly two, the first voltage keeps the raw
backward difference of index 1 and only the final entry is zeroed. -/
theorem C4_voltage_curve (cursor : List VCPoint) (mu : ℚ) :
    List.Chain' (fun a b => a.x < b.x) (vcPoints cursor) ∧
    (voltageList cursor mu).length = (vcPoints cursor).length ∧
    (∀ i, 0 < i → i + 1 < (vcPoints cursor).length →
      (voltageList cursor mu).getD i 0 =
        -((((vcPoints cursor).getD i default).enthalpyPerB -
            ((vcPoints cursor).getD (i - 1) default).enthalpyPerB) /
          (((vcPoints cursor).getD i default).x -
            ((vcPoints cursor).getD (i - 1) default).x)) + mu) ∧
    (2 ≤ (vcPoints cursor).length →
      (voltageList cursor mu).getD ((vcPoints cursor).length - 1) 0 = 0) ∧
    (3 ≤ (vcPoints cursor).length →
      (voltageList cursor mu).getD 0 0 = (voltageList cursor mu).getD 1 0) ∧
    ((vcPoints cursor).length = 2 →
      voltageList cursor mu = [vIter (vcPoints cursor) mu 1, 0]) := by
  have hlen : (voltageList cursor mu).length = (vcPoints cursor).length := by
    simp [voltageList]
  refine ⟨vcPoints_chain cursor, hlen, ?_, ?_, ?_, ?_⟩
  · intro i h0 hi
    have hi1 : i < (vcPoints cursor).length := by omega
    show ((((List.range (vcPoints cursor).length).map
        (vIter (vcPoints cursor) mu)).set 0 _).set
        ((vcPoints cursor).length - 1) 0).getD i 0 = _
    rw [List.getD_eq_getElem?_getD,
      List.getElem?_set_ne (show (vcPoints cursor).length - 1 ≠ i by omega),
      List.getElem?_set_ne (show (0 : ℕ) ≠ i by omega),
      List.getElem?_map, List.getElem?_range hi1]
    show vIter (vcPoints cursor) mu i = _
    rw [vIter, pyPred_eq i _ (by omega) (by omega)]
  · intro h2
    show ((((List.range (vcPoints cursor).length).map
        (vIter (vcPoints cursor) mu)).set 0 _).set
        ((vcPoints cursor).length - 1) 0).getD ((vcPoints cursor).length - 1) 0 = _
    rw [List.getD_eq_getElem?_getD,
      List.getElem?_set_self (by simp; omega)]
    rfl
  · intro h3
    show ((((List.range (vcPoints cursor).length).map
          (vIter (vcPoints cursor) mu)).set 0 _).set
          ((vcPoints cursor).length - 1) 0).getD 0 0 =
        ((((List.range (vcPoints cursor).length).map
          (vIter (vcPoints cursor) mu)).set 0 _).set
          ((vcPoints cursor).length - 1) 0).getD 1 0
    simp only [List.getD_eq_getElem?_getD]
    rw [List.getElem?_set_ne (show (vcPoints cursor).length - 1 ≠ 0 by omega),
      List.getElem?_set_ne (show (vcPoints cursor).length - 1 ≠ 1 by omega),
      List.getElem?_set_self (by simp; omega),
      List.getElem?_set_ne (show (0 : ℕ) ≠ 1 by omega)]
    simp
  · intro h2
    show (((List.range (vcPoints cursor).length).map
        (vIter (vcPoints cursor) mu)).set 0
        (((List.range (vcPoints cursor).length).map
          (vIter (vcPoints cursor) mu)).getD 1 0)).set
        ((vcPoints cursor).length - 1) 0 = _
    rw [h2]
    simp [List.range_succ]

/-- C4 witness: the amended theorem on a concrete three-point hull cursor. -/
theorem C4_voltage_curve_witness :
    (voltageList [⟨1, 1, 0⟩, ⟨0, 0, 0⟩, ⟨2, (3 : ℚ)/2, 0⟩] 0).getD 0 0 =
      (voltageList [⟨1, 1, 0⟩, ⟨0, 0, 0⟩, ⟨2, (3 : ℚ)/2, 0⟩] 0).getD 1 0 ∧
    (voltageList [⟨1, 1, 0⟩, ⟨0, 0, 0⟩, ⟨2, (3 : ℚ)/2, 0⟩] 0).getD 2 0 = 0 := by
  have hlen : (vcPoints [⟨1, 1, 0⟩, ⟨0, 0, 0⟩, ⟨2, (3 : ℚ)/2, 0⟩]).length = 3 := by
    norm_num [vcPoints, dedupByX, dedupRun, List.insertionSort, List.orderedInsert]
  have h := C4_voltage_curve [⟨1, 1, 0⟩, ⟨0, 0, 0⟩, ⟨2, (3 : ℚ)/2, 0⟩] 0
  refine ⟨h.2.2.2.2.1 (by rw [hlen]), ?_⟩
  have h2 := h.2.2.2.1 (by rw [hlen]; norm_num)
  rwa [hlen] at h2

theorem pyExponent_eval {m : ℚ} {l : ℤ} (hm : 0 < m)
    (h1 : (10 : ℚ) ^ l ≤ m) (h2 : m < (10 : ℚ) ^ (l + 1)) :
    pyExponent m = if m ^ 2 < (10 : ℚ) ^ (2 * l + 1) then l - 1 else l := by
  have hlog : Int.log 10 m = l := by
    have hle := (Int.zpow_le_iff_le_log (b := 10) (by norm_num) hm).mp h1
    have hlt := (Int.lt_zpow_iff_log_lt (b := 10) (by norm_num) hm).mp h2
    omega
  rw [pyExponent, hlog]

theorem roundHalfEven_ge (q : ℚ) : q - 1 / 2 ≤ (roundHalfEven q : ℚ) := by
  have hf1 : ((⌊q⌋ : ℤ) : ℚ) ≤ q := Int.floor_le q
  have hf2 : q < ⌊q⌋ + 1 := Int.lt_floor_add_one q
  unfold roundHalfEven
  split_ifs <;> push_cast <;> linarith

theorem pyRound_ge (q : ℚ) (p : ℕ) : q - 1 / 2 / 10 ^ p ≤ pyRound q p := by
  have hp : (0 : ℚ) < 10 ^ p := by positivity
  have h := roundHalfEven_ge (q * 10 ^ p)
  unfold pyRound
  rw [le_div_iff₀ hp]
  calc (q - 1 / 2 / 10 ^ p) * 10 ^ p = q * 10 ^ p - 1 / 2 := by
        field_simp
        ring
    _ ≤ (roundHalfEven (q * 10 ^ p) : ℚ) := h

theorem le_maxSpacing (L : Lattice) (grid : ℕ × ℕ × ℕ) :
    0 ≤ maxSpacing L grid ∧
    axisSpacing L grid.1 Lattice.a ≤ maxSpacing L grid ∧
    axisSpacing L grid.2.1 Lattice.b ≤ maxSpacing L grid ∧
    axisSpacing L grid.2.2 Lattice.c ≤ maxSpacing L grid := by
  unfold maxSpacing
  dsimp only
  split_ifs <;> refine ⟨?_, ?_, ?_, ?_⟩ <;> linarith

theorem ceil_le_of_spacing (len : ℚ) (n : ℕ) (s : ℚ)
    (hn : 1 ≤ n) (hs : 0 < s) (hle : len / n ≤ s) : ⌈len / s⌉ ≤ (n : ℤ) := by
  have hnq : (0 : ℚ) < n := by exact_mod_cast hn
  rw [Int.ceil_le]
  push_cast
  rw [div_le_iff₀ hs]
  calc len = len / n * n := by field_simp
    _ ≤ s * n := mul_le_mul_of_nonneg_right hle (le_of_lt hnq)
    _ = n * s := mul_comm _ _

/-- C2 counterexample: for the cubic lattice with `a = 500/7` and a `1×1×1`
Monkhorst-Pack grid the true maximum spacing is `7/500 = 0.014`; the rounding
exponent is `round(log10(0.014) − 1) = −3`, so `calc_mp_spacing` rounds
`0.0145` to `0.01`, which is strictly finer than the true spacing — and the
grid recomputed from the returned spacing is `2×2×2`, exceeding the original
grid in every dimension.  (Checked against CPython:
`round(0.014 + 0.5*10**round(log10(0.014)-1), 2) == 0.01`.) -/
theorem C2_counterexample :
    maxSpacing (cubic (500 / 7)) (1, 1, 1) = 7 / 500 ∧
    calc_mp_spacing (cubic (500 / 7)) (1, 1, 1) 2 = 1 / 100 ∧
    calc_mp_spacing (cubic (500 / 7)) (1, 1, 1) 2 <
      maxSpacing (cubic (500 / 7)) (1, 1, 1) ∧
    gridFromSpacing (cubic (500 / 7)) (calc_mp_spacing (cubic (500 / 7)) (1, 1, 1) 2)
      = (2, 2, 2) ∧
    ¬ ((2 : ℤ) ≤ 1) := by
  have hm : maxSpacing (cubic (500 / 7)) (1, 1, 1) = 7 / 500 := by
    norm_num [maxSpacing, axisSpacing, real2recipStar, cross, dot, vdiv, lenSq,
      rowLen, cubic, Rat.sqrt]
  have hexp : pyExponent ((7 : ℚ) / 500) = -3 := by
    rw [pyExponent_eval (l := -2) (by norm_num) (by norm_num) (by norm_num)]
    norm_num
  have hcalc : calc_mp_spacing (cubic (500 / 7)) (1, 1, 1) 2 = 1 / 100 := by
    rw [calc_mp_spacing, hm, hexp, pyRound, roundHalfEven]
    norm_num
  refine ⟨hm, hcalc, ?_, ?_, by norm_num⟩
  · rw [hm, hcalc]; norm_num
  · rw [hcalc]
    norm_num [gridFromSpacing, real2recipStar, cross, dot, vdiv, lenSq, rowLen,
      cubic, Rat.sqrt, Int.ceil_eq_iff]

/-- C2 (amended): the upward-biased rounding of `calc_mp_spacing` never
returns a spacing finer than the true maximum spacing — and the grid
recomputed from it never exceeds the supplied grid — **provided** the rounding
exponent `round(log10(max_spacing) − 1)` is at least `−precision` (for the
default precision 2, max spacings of roughly `10^(−3/2) ≈ 0.0316` and above).
Below that regime the invariant can fail, as the counterexample shows. -/
theorem C2_spacing_amended (L : Lattice) (grid : ℕ × ℕ × ℕ) (prec : ℕ)
    (hexp : -(prec : ℤ) ≤ pyExponent (maxSpacing L grid)) :
    maxSpacing L grid ≤ calc_mp_spacing L grid prec ∧
    (0 < calc_mp_spacing L grid prec → 1 ≤ grid.1 → 1 ≤ grid.2.1 → 1 ≤ grid.2.2 →
      (gridFromSpacing L (calc_mp_spacing L grid prec)).1 ≤ (grid.1 : ℤ) ∧
      (gridFromSpacing L (calc_mp_spacing L grid prec)).2.1 ≤ (grid.2.1 : ℤ) ∧
      (gridFromSpacing L (calc_mp_spacing L grid prec)).2.2 ≤ (grid.2.2 : ℤ)) := by
  have hmain : maxSpacing L grid ≤ calc_mp_spacing L grid prec := by
    have hround := pyRound_ge
      (maxSpacing L grid + 1 / 2 * (10 : ℚ) ^ pyExponent (maxSpacing L grid)) prec
    have hzp : (10 : ℚ) ^ (-(prec : ℤ)) ≤ (10 : ℚ) ^ pyExponent (maxSpacing L grid) :=
      zpow_le_zpow_right₀ (by norm_num) hexp
    have hneg : (10 : ℚ) ^ (-(prec : ℤ)) = (10 ^ prec)⁻¹ := by
      rw [zpow_neg, zpow_natCast]
    rw [hneg] at hzp
    have : calc_mp_spacing L grid prec =
        pyRound (maxSpacing L grid +
          1 / 2 * (10 : ℚ) ^ pyExponent (maxSpacing L grid)) prec := rfl
    rw [this]
    have h10 : (0 : ℚ) < 10 ^ prec := by positivity
    have hh : 1 / 2 / 10 ^ prec ≤
        1 / 2 * (10 : ℚ) ^ pyExponent (maxSpacing L grid) := by
      rw [div_eq_mul_inv ((1 : ℚ) / 2) ((10 : ℚ) ^ prec)]
      exact mul_le_mul_of_nonneg_left hzp (by norm_num)
    linarith
  refine ⟨hmain, fun hs h1 h2 h3 => ?_⟩
  obtain ⟨-, ha, hb, hc⟩ := le_maxSpacing L grid
  exact ⟨ceil_le_of_spacing _ _ _ h1 hs (le_trans ha hmain),
    ceil_le_of_spacing _ _ _ h2 hs (le_trans hb hmain),
    ceil_le_of_spacing _ _ _ h3 hs (le_trans hc hmain)⟩

/-- C2 witness: the amended invariant on the cubic lattice with `a = 8`
(max spacing 0.125, exponent −2, returned spacing 0.13, recomputed grid
`1×1×1`). -/
theorem C2_spacing_amended_witness :
    -(2 : ℤ) ≤ pyExponent (maxSpacing (cubic 8) (1, 1, 1)) ∧
    maxSpacing (cubic 8) (1, 1, 1) ≤ calc_mp_spacing (cubic 8) (1, 1, 1) 2 ∧
    (gridFromSpacing (cubic 8) (calc_mp_spacing (cubic 8) (1, 1, 1) 2)).1 ≤ 1 := by
  have hm : maxSpacing (cubic 8) (1, 1, 1) = 1 / 8 := by
    norm_num [maxSpacing, axisSpacing, real2recipStar, cross, dot, vdiv, lenSq,
      rowLen, cubic, Rat.sqrt]
  have hexp : pyExponent ((1 : ℚ) / 8) = -2 := by
    rw [pyExponent_eval (l := -1) (by norm_num) (by norm_num) (by norm_num)]
    norm_num
  have hexp2 : -((2 : ℕ) : ℤ) ≤ pyExponent (maxSpacing (cubic 8) (1, 1, 1)) := by
    rw [hm, hexp]; norm_num
  have hcalc : calc_mp_spacing (cubic 8) (1, 1, 1) 2 = 13 / 100 := by
    rw [calc_mp_spacing, hm, hexp, pyRound, roundHalfEven]
    norm_num
  have h := C2_spacing_amended (cubic 8) (1, 1, 1) 2 hexp2
  refine ⟨by exact_mod_cast hexp2, h.1, ?_⟩
  exact (h.2 (by rw [hcalc]; norm_num) (by norm_num) (by norm_num) (by norm_num)).1

end Matador
